import Mathlib

/-!
Verification development for the RSNVs single-nucleotide-variant tool
(src/main.rs).  The program loads a contig store (FASTA-like), a mutation
table (CSV triples) and a gene coordinate table (CSV quadruples), applies
the mutations falling inside each gene's coordinate span to a working copy
of the gene's contig sequence, and slices the span out of the mutated copy.

Shallow embedding conventions:
* Rust `String` values are modelled as `List Char`; byte-level operations
  of the source (`String::len`, byte-range slicing `&s[a..b]`) are modelled
  through the UTF-8 byte widths of the characters (`Char.utf8Size`), since
  the source mixes byte indices and char indices.
* `usize` arithmetic uses `Nat`; the single subtraction that can underflow
  (`position - 1` on a `usize`) is modelled with release-mode wrapping
  semantics, `wsub1`.
* A Rust panic (out-of-bounds `Vec` indexing, out-of-range string slicing)
  is modelled as `Except.error`/`Option.none`; it aborts the run.
* `HashMap` is modelled as an association list with overwrite-on-insert;
  only its key-value content is relied upon by confirmed theorems.
-/

namespace RSNV

/-- Rust `String` contents, one entry per `char`. -/
abbrev Str := List Char

/-- Largest `usize` value on the 64-bit targets the program is built for. -/
def USIZE_MAX : Nat := 2 ^ 64 - 1

/-- UTF-8 byte length of a string, i.e. Rust `String::len` / `str::len`. -/
def utf8Len (s : Str) : Nat := (s.map Char.utf8Size).sum

/-- `true` iff every character of the string is a single UTF-8 byte. -/
def asciiStr (s : Str) : Bool := s.all (fun c => c.utf8Size == 1)

/-- Release-mode `usize` subtraction of 1 (wraps at 0), as in `position - 1`
and `start_position - 1` in `gene_snv_replace`. -/
def wsub1 (p : Nat) : Nat := if p = 0 then USIZE_MAX else p - 1

/-- Characters occupying exactly the first `n` bytes of `s`; `none` when `n`
exceeds the byte length or does not fall on a character boundary (the cases
where Rust byte slicing panics). -/
def takeBytes : Str → Nat → Option Str
  | _, 0 => some []
  | [], _ + 1 => none
  | c :: cs, n + 1 =>
    if c.utf8Size ≤ n + 1 then (takeBytes cs (n + 1 - c.utf8Size)).map (fun t => c :: t)
    else none

/-- Characters remaining after removing the first `a` bytes of `s`; `none`
when `a` exceeds the byte length or falls inside a character. -/
def dropBytes : Str → Nat → Option Str
  | l, 0 => some l
  | [], _ + 1 => none
  | c :: cs, a + 1 =>
    if c.utf8Size ≤ a + 1 then dropBytes cs (a + 1 - c.utf8Size) else none

/-- Rust byte-range slicing `&s[a..b]` on a `String`: defined when
`a ≤ b ≤ s.len()` and both ends are character boundaries, a panic
(`none`) otherwise. -/
def byteSlice (s : Str) (a b : Nat) : Option Str :=
  if a ≤ b then (dropBytes s a).bind (fun t => takeBytes t (b - a)) else none

/-- Association-list model of `HashMap` lookup (`get`). -/
def mapGet? {α : Type} (m : List (Str × α)) (k : Str) : Option α :=
  (m.find? (fun kv => kv.1 == k)).map (fun kv => kv.2)

/-- Association-list model of `HashMap::insert`: overwrite the existing
entry or append a new one. -/
def mapInsert {α : Type} (m : List (Str × α)) (k : Str) (v : α) : List (Str × α) :=
  if m.any (fun kv => kv.1 == k) then
    m.map (fun kv => if kv.1 == k then (k, v) else kv)
  else m ++ [(k, v)]

/-- Model of `map.entry(k).or_insert(vec![]).push(v)`. -/
def pushEntry {α : Type} (m : List (Str × List α)) (k : Str) (v : α) : List (Str × List α) :=
  match mapGet? m k with
  | some l => mapInsert m k (l ++ [v])
  | none => mapInsert m k [v]

/-- Rust `str::split(',')`: splits at every comma, yielding `n + 1` pieces
for `n` commas (the empty string yields one empty piece). -/
def splitComma : Str → List Str
  | [] => [[]]
  | c :: cs =>
    if c = ',' then [] :: splitComma cs
    else
      match splitComma cs with
      | [] => [[c]]
      | p :: rest => (c :: p) :: rest

/-- Numeric value of a digit string (most significant first). -/
def digitsToNat (s : Str) : Nat :=
  s.foldl (fun n c => n * 10 + (c.toNat - '0'.toNat)) 0

/-- Rust `str::parse::<usize>()`: an optional leading `+`, then one or more
ASCII digits, value at most `usize::MAX`; anything else is an error. -/
def parseUsize (s : Str) : Option Nat :=
  let t := if s.head? = some '+' then s.tail else s
  if t ≠ [] ∧ t.all Char.isDigit ∧ digitsToNat t ≤ USIZE_MAX then some (digitsToNat t)
  else none

/-- The Unicode White_Space characters recognized by Rust
`char::is_whitespace`. -/
def rustIsWhitespace (c : Char) : Bool :=
  c.val == 0x09 || c.val == 0x0A || c.val == 0x0B || c.val == 0x0C || c.val == 0x0D ||
  c.val == 0x20 || c.val == 0x85 || c.val == 0xA0 || c.val == 0x1680 ||
  (0x2000 ≤ c.val && c.val ≤ 0x200A) ||
  c.val == 0x2028 || c.val == 0x2029 || c.val == 0x202F || c.val == 0x205F || c.val == 0x3000

/-- Rust `str::trim`: strip leading and trailing whitespace. -/
def trimStr (s : Str) : Str :=
  ((s.dropWhile rustIsWhitespace).reverse.dropWhile rustIsWhitespace).reverse

/-- `struct GeneInfo` from src/main.rs. -/
structure GeneInfo where
  contig_id : Str
  start_position : Nat
  end_position : Nat
  gene_id : Str
deriving DecidableEq, Repr

/-- Contig Store: identifier → sequence, as built by `read_contigs`. -/
abbrev ContigMap := List (Str × Str)

/-- Gene Coordinate Index keyed by contig id, as built by
`read_gene_positions`. -/
abbrev GenePosMap := List (Str × List GeneInfo)

/-- Mutation Table entry: `(contig_id, position, new_base)`. -/
abbrev Mut := Str × Nat × Char

/-- Shared result map of the engine: gene id → full mutated contig copy. -/
abbrev MutStore := List (Str × Str)

/-- One `read_contigs` loop iteration over a line: a `>` line flushes the
pending record (only when both the pending id and sequence are nonempty)
and starts a new record named by the rest of the line; any other line is
appended verbatim to the pending sequence. -/
def readContigsStep : ContigMap × Str × Str → Str → ContigMap × Str × Str
  | (contigs, current_id, current_sequence), line =>
    if line.head? = some '>' then
      (if current_id ≠ [] ∧ current_sequence ≠ [] then
         mapInsert contigs current_id current_sequence
       else contigs,
       line.tail, [])
    else
      (contigs, current_id, current_sequence ++ line)

/-- Final flush of `read_contigs` after the line loop. -/
def readContigsFinish (acc : ContigMap × Str × Str) : ContigMap :=
  if acc.2.1 ≠ [] ∧ acc.2.2 ≠ [] then mapInsert acc.1 acc.2.1 acc.2.2 else acc.1

/-- `read_contigs` from src/main.rs, over the file's list of lines. -/
def read_contigs (lines : List Str) : ContigMap :=
  readContigsFinish (lines.foldl readContigsStep ([], [], []))

/-- One `read_mutations` loop iteration (lines 266-275): split the line at
commas; push an entry when there are exactly three fields, the second
parses as `usize`, and the third is nonempty (its first char is the
replacement base); otherwise leave the table unchanged. -/
def readMutationsStep (mutations : List Mut) (line : Str) : List Mut :=
  match splitComma line with
  | [contig_id, posField, baseField] =>
    match parseUsize posField with
    | some position =>
      match baseField.head? with
      | some new_base => mutations ++ [(contig_id, position, new_base)]
      | none => mutations
    | none => mutations
  | _ => mutations

/-- `read_mutations` from src/main.rs, over the file's list of lines. -/
def read_mutations (lines : List Str) : List Mut :=
  lines.foldl readMutationsStep []

/-- The loop of `read_gene_positions` over the csv reader's records.  The
csv reader is non-flexible (the default): the first record fixes the
expected field count and any later record with a different count yields an
error, which line 289's `?` propagates, aborting the whole read.  An
accepted record is trimmed field-wise; with exactly 4 fields and both
coordinates parsing as `usize` it is pushed under its contig id, otherwise
it is skipped with a diagnostic. -/
def readGenePositionsLoop : List (List Str) → Option Nat → GenePosMap → Except String GenePosMap
  | [], _, m => .ok m
  | rec :: rest, expected, m =>
    match expected with
    | some n =>
      if rec.length ≠ n then .error "CSV error: record length mismatch"
      else readGenePositionsLoop rest (some n) (readGeneRecord m rec)
    | none => readGenePositionsLoop rest (some rec.length) (readGeneRecord m rec)
where
  /-- Per-record body of the loop (lines 290-311 of src/main.rs). -/
  readGeneRecord (m : GenePosMap) (rec : List Str) : GenePosMap :=
    match rec.map trimStr with
    | [contig_id, gene_id, startField, endField] =>
      match parseUsize startField, parseUsize endField with
      | some start_position, some end_position =>
        pushEntry m contig_id ⟨contig_id, start_position, end_position, gene_id⟩
      | _, _ => m
    | _ => m

/-- `read_gene_positions` from src/main.rs, over the csv reader's records
(CSV tokenization itself is outside the core; a record is its field list). -/
def read_gene_positions (records : List (List Str)) : Except String GenePosMap :=
  readGenePositionsLoop records none []

/-- `mutations.iter().find(...)` from line 85: the first table entry whose
contig and position match, if any. -/
def findMutation (mutations : List Mut) (contig_id : Str) (position : Nat) : Option Char :=
  (mutations.find? (fun m => m.1 == contig_id && m.2.1 == position)).map (fun m => m.2.2)

/-- One iteration of the substitution loop (lines 85-92): on a matching
mutation, when `position - 1` is below the string's byte length the char
vector is indexed at `position - 1` — a panic (`none`) when that index is
not below the char count — and the base is overwritten; otherwise the copy
is left unchanged. -/
def mutatePos (mutations : List Mut) (contig_id : Str) (s : Str) (position : Nat) : Option Str :=
  match findMutation mutations contig_id position with
  | some new_base =>
    if wsub1 position < utf8Len s then
      if wsub1 position < s.length then some (s.set (wsub1 position) new_base) else none
    else some s
  | none => some s

/-- The substitution loop from `position` for `count` iterations. -/
def mutateLoop (mutations : List Mut) (contig_id : Str) : Nat → Nat → Str → Option Str
  | _, 0, s => some s
  | position, count + 1, s =>
    match mutatePos mutations contig_id s position with
    | some t => mutateLoop mutations contig_id (position + 1) count t
    | none => none

/-- Lines 83-94: `for position in start..=end` over a working copy of the
contig sequence. -/
def mutateRange (mutations : List Mut) (contig_id : Str) (startp endp : Nat) (s : Str) :
    Option Str :=
  mutateLoop mutations contig_id startp (endp + 1 - startp) s

/-- Lines 68-72: group the gene coordinate records by gene id, preserving
the order in which `gene_positions_map.values().flatten()` yields them. -/
def gene_contigs_map (gpm : GenePosMap) : List (Str × List GeneInfo) :=
  ((gpm.map (fun kv => kv.2)).flatten).foldl (fun m gi => pushEntry m gi.gene_id gi) []

/-- The engine's per-gene task (lines 78-101): for each record of the gene,
look up its contig (skipping with a diagnostic when absent), run the
substitution loop on a copy, and store the full mutated sequence under the
gene id; a panic in the loop aborts the run. -/
def processGene (contigs : ContigMap) (mutations : List Mut) (store : MutStore)
    (gene_id : Str) (gene_info_list : List GeneInfo) : Except String MutStore :=
  gene_info_list.foldlM
    (fun st gi =>
      match mapGet? contigs gi.contig_id with
      | some contig_sequence =>
        match mutateRange mutations gi.contig_id gi.start_position gi.end_position
            contig_sequence with
        | some mutated_sequence => .ok (mapInsert st gene_id mutated_sequence)
        | none => .error "panic: index out of bounds"
      | none => .ok st)
    store

/-- All per-gene tasks (line 77's `par_iter`): tasks write disjoint keys of
the shared map, so their fan-in is modelled by a sequential fold; any task
panic aborts the run. -/
def applyMutationsToGenes (contigs : ContigMap) (mutations : List Mut)
    (gcm : List (Str × List GeneInfo)) : Except String MutStore :=
  gcm.foldlM (fun st e => processGene contigs mutations st e.1 e.2) []

/-- Lines 112-124: walk the gene's records; skip (with a diagnostic) those
whose contig is absent from the store; at the first present one, byte-slice
the stored mutated sequence over `[start_position - 1 .. end_position)` —
a panic (`.error`) when the range is out of bounds — and return it. -/
def extractLoop (contigs : ContigMap) (mutated_sequence : Str) :
    List GeneInfo → Except String (Option Str)
  | [] => .ok none
  | gi :: rest =>
    match mapGet? contigs gi.contig_id with
    | some _ =>
      match byteSlice mutated_sequence (wsub1 gi.start_position) gi.end_position with
      | some gene_sequence => .ok (some gene_sequence)
      | none => .error "panic: byte index out of range"
    | none => extractLoop contigs mutated_sequence rest

/-- Lines 107-130: build the result map, skipping (with a diagnostic) gene
ids with no stored mutated sequence and records with absent contigs. -/
def collectResults (contigs : ContigMap) (mstore : MutStore)
    (gcm : List (Str × List GeneInfo)) : Except String (List (Str × Str)) :=
  gcm.foldlM
    (fun acc e =>
      match mapGet? mstore e.1 with
      | some mutated_sequence =>
        match extractLoop contigs mutated_sequence e.2 with
        | .ok (some gene_sequence) => .ok (acc ++ [(e.1, gene_sequence)])
        | .ok none => .ok acc
        | .error msg => .error msg
      | none => .ok acc)
    []

/-- `gene_snv_replace` (src/main.rs lines 44-143), output writing aside:
parse the three inputs (a gene-position read error is propagated), group
records by gene id, run the engine and extract the per-gene slices. -/
def gene_snv_replace (contig_lines : List Str) (mutation_lines : List Str)
    (gene_records : List (List Str)) : Except String (List (Str × Str)) := do
  let contigs := read_contigs contig_lines
  let mutations := read_mutations mutation_lines
  let gpm ← read_gene_positions gene_records
  let gcm := gene_contigs_map gpm
  let mstore ← applyMutationsToGenes contigs mutations gcm
  collectResults contigs mstore gcm

/-! ### Helper lemmas: UTF-8 byte lengths and ASCII strings -/

lemma utf8Size_ge_one (c : Char) : 1 ≤ c.utf8Size := Char.utf8Size_pos c

lemma utf8Len_nil : utf8Len [] = 0 := rfl

lemma utf8Len_cons (c : Char) (s : Str) : utf8Len (c :: s) = c.utf8Size + utf8Len s := rfl

lemma length_le_utf8Len (s : Str) : s.length ≤ utf8Len s := by
  induction s with
  | nil => simp [utf8Len]
  | cons c cs ih =>
    have := utf8Size_ge_one c
    simp only [List.length_cons, utf8Len_cons]
    omega

lemma asciiStr_iff (s : Str) : asciiStr s = true ↔ ∀ c ∈ s, c.utf8Size = 1 := by
  simp [asciiStr, List.all_eq_true]

lemma utf8Len_of_ascii (s : Str) (h : asciiStr s = true) : utf8Len s = s.length := by
  rw [asciiStr_iff] at h
  induction s with
  | nil => rfl
  | cons c cs ih =>
    have hc := h c (by simp)
    have := ih (fun x hx => h x (by simp [hx]))
    simp only [utf8Len_cons, List.length_cons]
    omega

lemma asciiStr_set (s : Str) (i : Nat) (b : Char) (hs : asciiStr s = true)
    (hb : b.utf8Size = 1) : asciiStr (s.set i b) = true := by
  rw [asciiStr_iff] at hs ⊢
  intro c hc
  rcases List.mem_or_eq_of_mem_set hc with h | h
  · exact hs c h
  · rw [h]; exact hb

lemma asciiStr_sub (s t : Str) (hsub : t ⊆ s) (hs : asciiStr s = true) :
    asciiStr t = true := by
  rw [asciiStr_iff] at hs ⊢
  exact fun c hc => hs c (hsub hc)

lemma takeBytes_of_ascii (s : Str) (n : Nat) (hs : asciiStr s = true) (hn : n ≤ s.length) :
    takeBytes s n = some (s.take n) := by
  induction s generalizing n with
  | nil =>
    have hz : n = 0 := by simpa using hn
    subst hz
    rfl
  | cons c cs ih =>
    match n with
    | 0 => rfl
    | n + 1 =>
      have hc : c.utf8Size = 1 := (asciiStr_iff _).1 hs c (by simp)
      have hcs : asciiStr cs = true := asciiStr_sub _ _ (by simp) hs
      have hn2 : n ≤ cs.length := by
        simp only [List.length_cons] at hn
        omega
      simp only [takeBytes, hc]
      rw [if_pos (by omega)]
      have he : n + 1 - 1 = n := by omega
      rw [he, ih n hcs hn2]
      rfl

lemma dropBytes_of_ascii (s : Str) (a : Nat) (hs : asciiStr s = true) (ha : a ≤ s.length) :
    dropBytes s a = some (s.drop a) := by
  induction s generalizing a with
  | nil =>
    have hz : a = 0 := by simpa using ha
    subst hz
    rfl
  | cons c cs ih =>
    match a with
    | 0 => rfl
    | a + 1 =>
      have hc : c.utf8Size = 1 := (asciiStr_iff _).1 hs c (by simp)
      have hcs : asciiStr cs = true := asciiStr_sub _ _ (by simp) hs
      have ha2 : a ≤ cs.length := by
        simp only [List.length_cons] at ha
        omega
      simp only [dropBytes, hc]
      rw [if_pos (by omega)]
      have he : a + 1 - 1 = a := by omega
      rw [he, ih a hcs ha2]
      rfl

lemma takeBytes_none_of_lt (s : Str) (n : Nat) (h : utf8Len s < n) : takeBytes s n = none := by
  induction s generalizing n with
  | nil =>
    match n with
    | 0 => simp [utf8Len] at h
    | n + 1 => rfl
  | cons c cs ih =>
    match n with
    | 0 => omega
    | n + 1 =>
      simp only [takeBytes]
      split
      · have hlt : utf8Len cs < n + 1 - c.utf8Size := by
          rw [utf8Len_cons] at h
          omega
        simp [ih _ hlt]
      · rfl

lemma dropBytes_utf8Len (s : Str) (a : Nat) (t : Str) (h : dropBytes s a = some t) :
    utf8Len s = a + utf8Len t := by
  induction s generalizing a with
  | nil =>
    match a with
    | 0 =>
      simp only [dropBytes] at h
      cases h
      simp [utf8Len]
    | a + 1 => simp [dropBytes] at h
  | cons c cs ih =>
    match a with
    | 0 =>
      simp only [dropBytes] at h
      cases h
      omega
    | a + 1 =>
      simp only [dropBytes] at h
      split at h
      · have := ih _ h
        have := utf8Size_ge_one c
        rw [utf8Len_cons]
        omega
      · cases h

lemma byteSlice_none_of_lt (s : Str) (a b : Nat) (h : utf8Len s < b) :
    byteSlice s a b = none := by
  unfold byteSlice
  split
  · cases hd : dropBytes s a with
    | none => rfl
    | some t =>
      have := dropBytes_utf8Len s a t hd
      rw [Option.some_bind]
      exact takeBytes_none_of_lt t (b - a) (by omega)
  · rfl

lemma byteSlice_of_ascii (s : Str) (a b : Nat) (hs : asciiStr s = true) (hab : a ≤ b)
    (hb : b ≤ s.length) : byteSlice s a b = some ((s.drop a).take (b - a)) := by
  unfold byteSlice
  rw [if_pos hab, dropBytes_of_ascii s a hs (by omega), Option.some_bind]
  exact takeBytes_of_ascii _ _ (asciiStr_sub _ _ (List.drop_subset a s) hs)
    (by rw [List.length_drop]; omega)

/-! ### Helper lemmas: the substitution loop -/

/-- Every replacement base of the table is a single UTF-8 byte. -/
def mutBasesAscii (mutations : List Mut) : Bool :=
  mutations.all (fun m => m.2.2.utf8Size == 1)

lemma findMutation_base_ascii (mutations : List Mut) (cid : Str) (p : Nat) (b : Char)
    (hb : mutBasesAscii mutations = true) (h : findMutation mutations cid p = some b) :
    b.utf8Size = 1 := by
  unfold findMutation at h
  rcases Option.map_eq_some'.1 h with ⟨m, hm, hmb⟩
  have hmem := List.mem_of_find?_eq_some hm
  have := (List.all_eq_true.1 hb) m hmem
  rw [beq_iff_eq] at this
  rw [← hmb]
  exact this

/-- Case-analysis normal form for `mutatePos`: the three reachable shapes. -/
lemma mutatePos_cases (mutations : List Mut) (cid : Str) (s : Str) (p : Nat) :
    (findMutation mutations cid p = none ∧ mutatePos mutations cid s p = some s) ∨
    (∃ b, findMutation mutations cid p = some b ∧ ¬ wsub1 p < utf8Len s ∧
      mutatePos mutations cid s p = some s) ∨
    (∃ b, findMutation mutations cid p = some b ∧ wsub1 p < utf8Len s ∧
      wsub1 p < s.length ∧ mutatePos mutations cid s p = some (s.set (wsub1 p) b)) ∨
    (∃ b, findMutation mutations cid p = some b ∧ wsub1 p < utf8Len s ∧
      ¬ wsub1 p < s.length ∧ mutatePos mutations cid s p = none) := by
  unfold mutatePos
  cases hf : findMutation mutations cid p with
  | none => exact Or.inl ⟨rfl, rfl⟩
  | some b =>
    dsimp only
    rcases Nat.lt_or_ge (wsub1 p) (utf8Len s) with h1 | h1
    · rcases Nat.lt_or_ge (wsub1 p) s.length with h2 | h2
      · refine Or.inr (Or.inr (Or.inl ⟨b, rfl, h1, h2, ?_⟩))
        rw [if_pos h1, if_pos h2]
      · refine Or.inr (Or.inr (Or.inr ⟨b, rfl, h1, by omega, ?_⟩))
        rw [if_pos h1, if_neg (by omega)]
    · refine Or.inr (Or.inl ⟨b, rfl, by omega, ?_⟩)
      rw [if_neg (by omega)]

lemma mutatePos_length (mutations : List Mut) (cid : Str) (s : Str) (p : Nat) (t : Str)
    (h : mutatePos mutations cid s p = some t) : t.length = s.length := by
  rcases mutatePos_cases mutations cid s p with ⟨_, he⟩ | ⟨b, _, _, he⟩ |
      ⟨b, _, _, _, he⟩ | ⟨b, _, _, _, he⟩ <;> rw [he] at h
  · cases h; rfl
  · cases h; rfl
  · cases h; exact List.length_set s _ b
  · cases h

lemma mutatePos_ascii (mutations : List Mut) (cid : Str) (s : Str) (p : Nat) (t : Str)
    (hs : asciiStr s = true) (hb : mutBasesAscii mutations = true)
    (h : mutatePos mutations cid s p = some t) : asciiStr t = true := by
  rcases mutatePos_cases mutations cid s p with ⟨_, he⟩ | ⟨b, _, _, he⟩ |
      ⟨b, hf, _, _, he⟩ | ⟨b, _, _, _, he⟩ <;> rw [he] at h
  · cases h; exact hs
  · cases h; exact hs
  · cases h; exact asciiStr_set s _ b hs (findMutation_base_ascii mutations cid p b hb hf)
  · cases h

lemma mutatePos_some_of_ascii (mutations : List Mut) (cid : Str) (s : Str) (p : Nat)
    (hs : asciiStr s = true) : ∃ t, mutatePos mutations cid s p = some t := by
  have hlen := utf8Len_of_ascii s hs
  rcases mutatePos_cases mutations cid s p with ⟨_, he⟩ | ⟨b, _, _, he⟩ |
      ⟨b, _, _, _, he⟩ | ⟨b, _, h1, h2, _⟩
  · exact ⟨s, he⟩
  · exact ⟨s, he⟩
  · exact ⟨_, he⟩
  · omega

lemma mutatePos_frame (mutations : List Mut) (cid : Str) (s : Str) (p : Nat) (t : Str) (i : Nat)
    (h : mutatePos mutations cid s p = some t) (hi : wsub1 p ≠ i) : t[i]? = s[i]? := by
  rcases mutatePos_cases mutations cid s p with ⟨_, he⟩ | ⟨b, _, _, he⟩ |
      ⟨b, _, _, _, he⟩ | ⟨b, _, _, _, he⟩ <;> rw [he] at h
  · cases h; rfl
  · cases h; rfl
  · cases h; exact List.getElem?_set_ne hi
  · cases h

lemma mutatePos_zero (mutations : List Mut) (cid : Str) (s : Str)
    (hs : asciiStr s = true) (hlen : s.length ≤ USIZE_MAX) :
    mutatePos mutations cid s 0 = some s := by
  have h2 := utf8Len_of_ascii s hs
  have h1 : wsub1 0 = USIZE_MAX := rfl
  rcases mutatePos_cases mutations cid s 0 with ⟨_, he⟩ | ⟨b, _, _, he⟩ |
      ⟨b, _, hg, _, _⟩ | ⟨b, _, hg, _, _⟩
  · exact he
  · exact he
  · omega
  · omega

lemma mutatePos_point (mutations : List Mut) (cid : Str) (s : Str) (p : Nat) (t : Str)
    (hs : asciiStr s = true) (hp : 1 ≤ p) (h : mutatePos mutations cid s p = some t) :
    t[p - 1]? = (s[p - 1]?).map (fun orig => (findMutation mutations cid p).getD orig) := by
  have hw : wsub1 p = p - 1 := by
    unfold wsub1
    rw [if_neg (by omega)]
  have hlen := utf8Len_of_ascii s hs
  rcases mutatePos_cases mutations cid s p with ⟨hf, he⟩ | ⟨b, hf, hg, he⟩ |
      ⟨b, hf, _, hg, he⟩ | ⟨b, _, _, _, he⟩ <;> rw [he] at h
  · cases h
    rw [hf]
    cases ho : s[p - 1]? <;> simp [ho]
  · cases h
    rw [hf]
    have hnone : s[p - 1]? = none := List.getElem?_eq_none (by omega)
    rw [hnone]
    rfl
  · cases h
    rw [hf, hw, List.getElem?_set_self (by omega)]
    have hsome : s[p - 1]? = some (s.get ⟨p - 1, by omega⟩) :=
      List.getElem?_eq_getElem (by omega)
    rw [hsome]
    rfl
  · cases h

lemma wsub1_of_pos (p : Nat) (hp : 1 ≤ p) : wsub1 p = p - 1 := by
  unfold wsub1
  rw [if_neg (by omega)]

lemma mutateLoop_length (mutations : List Mut) (cid : Str) :
    ∀ (count position : Nat) (s t : Str),
      mutateLoop mutations cid position count s = some t → t.length = s.length := by
  intro count
  induction count with
  | zero =>
    intro position s t h
    simp only [mutateLoop] at h
    cases h
    rfl
  | succ k ih =>
    intro position s t h
    simp only [mutateLoop] at h
    cases hm : mutatePos mutations cid s position with
    | none => rw [hm] at h; cases h
    | some u =>
      rw [hm] at h
      have h1 := ih (position + 1) u t h
      have h2 := mutatePos_length mutations cid s position u hm
      omega

lemma mutateLoop_frame (mutations : List Mut) (cid : Str) :
    ∀ (count position : Nat) (s t : Str) (i : Nat),
      mutateLoop mutations cid position count s = some t →
      (∀ p, position ≤ p → p < position + count → wsub1 p ≠ i) →
      t[i]? = s[i]? := by
  intro count
  induction count with
  | zero =>
    intro position s t i h _
    simp only [mutateLoop] at h
    cases h
    rfl
  | succ k ih =>
    intro position s t i h hp
    simp only [mutateLoop] at h
    cases hm : mutatePos mutations cid s position with
    | none => rw [hm] at h; cases h
    | some u =>
      rw [hm] at h
      have h1 := ih (position + 1) u t i h (fun p hp1 hp2 => hp p (by omega) (by omega))
      have h2 := mutatePos_frame mutations cid s position u i hm
        (hp position (by omega) (by omega))
      rw [h1, h2]

lemma mutateLoop_some_of_ascii (mutations : List Mut) (cid : Str)
    (hb : mutBasesAscii mutations = true) :
    ∀ (count position : Nat) (s : Str), asciiStr s = true →
      ∃ t, mutateLoop mutations cid position count s = some t ∧ asciiStr t = true ∧
        t.length = s.length := by
  intro count
  induction count with
  | zero =>
    intro position s hs
    exact ⟨s, rfl, hs, rfl⟩
  | succ k ih =>
    intro position s hs
    rcases mutatePos_some_of_ascii mutations cid s position hs with ⟨u, hu⟩
    have hua : asciiStr u = true := mutatePos_ascii mutations cid s position u hs hb hu
    have hul : u.length = s.length := mutatePos_length mutations cid s position u hu
    rcases ih (position + 1) u hua with ⟨t, ht, hta, htl⟩
    refine ⟨t, ?_, hta, by omega⟩
    simp only [mutateLoop]
    rw [hu]
    exact ht

lemma mutateLoop_point (mutations : List Mut) (cid : Str)
    (hb : mutBasesAscii mutations = true) :
    ∀ (count position : Nat) (s t : Str) (p : Nat),
      asciiStr s = true → s.length ≤ USIZE_MAX →
      mutateLoop mutations cid position count s = some t →
      position ≤ p → p < position + count → 1 ≤ p →
      t[p - 1]? = (s[p - 1]?).map (fun orig => (findMutation mutations cid p).getD orig) := by
  intro count
  induction count with
  | zero =>
    intro position s t p _ _ _ h1 h2 _
    omega
  | succ k ih =>
    intro position s t p hs hlen h hp1 hp2 hp3
    simp only [mutateLoop] at h
    cases hm : mutatePos mutations cid s position with
    | none => rw [hm] at h; cases h
    | some u =>
      rw [hm] at h
      have hua : asciiStr u = true := mutatePos_ascii mutations cid s position u hs hb hm
      have hul : u.length = s.length := mutatePos_length mutations cid s position u hm
      rcases Nat.eq_or_lt_of_le hp1 with he | hgt
      · -- p is the position handled by this iteration
        subst he
        have hframe : t[position - 1]? = u[position - 1]? := by
          refine mutateLoop_frame mutations cid k (position + 1) u t (position - 1) h ?_
          intro q hq1 hq2
          rw [wsub1_of_pos q (by omega)]
          omega
        rw [hframe]
        exact mutatePos_point mutations cid s position u hs hp3 hm
      · -- p is handled by a later iteration; this one leaves index p-1 alone
        have hu : u[p - 1]? = s[p - 1]? := by
          rcases Nat.eq_zero_or_pos position with hz | hpos
          · subst hz
            rw [mutatePos_zero mutations cid s hs hlen] at hm
            cases hm
            rfl
          · refine mutatePos_frame mutations cid s position u (p - 1) hm ?_
            rw [wsub1_of_pos position hpos]
            omega
        have := ih (position + 1) u t p hua (by omega) h (by omega) (by omega) hp3
        rw [this, hu]

/-! ### Helper lemmas: first-match lookup in the mutation table -/

lemma findMutation_cons_self (rest : List Mut) (cid : Str) (p : Nat) (b : Char) :
    findMutation ((cid, p, b) :: rest) cid p = some b := by
  unfold findMutation
  rw [List.find?_cons_of_pos _ (by simp)]
  rfl

lemma findMutation_append_of_none (l1 l2 : List Mut) (cid : Str) (p : Nat)
    (h : ∀ m ∈ l1, ¬(m.1 = cid ∧ m.2.1 = p)) :
    findMutation (l1 ++ l2) cid p = findMutation l2 cid p := by
  induction l1 with
  | nil => rfl
  | cons m l1 ih =>
    have hm := h m (by simp)
    unfold findMutation
    rw [List.cons_append, List.find?_cons_of_neg _ (by simp; tauto)]
    exact ih (fun q hq => h q (by simp [hq]))

/-! ### Spec-side definitions, used only on the right-hand side of
refinement statements -/

/-- Follows the spec's words: the records started by the header lines after
`header`, where `header` is the identifier of the currently open record and
`seq` the sequence gathered for it so far. -/
def specRecordsAux (id seq : Str) : List Str → List (Str × Str)
  | [] => [(id, seq)]
  | line :: rest =>
    if line.head? = some '>' then (id, seq) :: specRecordsAux line.tail [] rest
    else specRecordsAux id (seq ++ line) rest

/-- Follows the spec's words: a record begins at each header line (a line
whose first character is the marker); its sequence is the verbatim
concatenation of the following non-header lines up to the next header or
the end of input; lines before the first header belong to no record. -/
def specRecords : List Str → List (Str × Str)
  | [] => []
  | line :: rest =>
    if line.head? = some '>' then specRecordsAux line.tail [] rest
    else specRecords rest

/-- Insert one record into the store: a record with an empty identifier or
an empty sequence is dropped, and a repeated identifier overwrites the
earlier entry. -/
def specInsert (m : ContigMap) (r : Str × Str) : ContigMap :=
  if r.1 ≠ [] ∧ r.2 ≠ [] then mapInsert m r.1 r.2 else m

/-- The Contig Store stated from the spec's words (amended with the
empty-identifier rule): fold the records in input order through
`specInsert`. -/
def contigStoreSpec (lines : List Str) : ContigMap :=
  (specRecords lines).foldl specInsert []

/-- The mutation row rule stated from the spec's words, with "parses as a
positive integer" amended to "parses as a Rust `usize`" (zero included):
exactly three comma-separated fields, the second parsing as `usize`, the
third nonempty, yielding the first character of the third field as base. -/
def mutRowSpec (line : Str) : Option Mut :=
  match splitComma line with
  | [contig_id, posField, baseField] =>
    match parseUsize posField, baseField.head? with
    | some position, some base => some (contig_id, position, base)
    | _, _ => none
  | _ => none

/-- The claimed mutation-row acceptance condition of C4, verbatim: exactly
three fields, a position field parsing as a positive integer, a nonempty
base field. -/
def c4ClaimAccept (line : Str) : Bool :=
  match splitComma line with
  | [_, posField, baseField] =>
    (match parseUsize posField with
     | some n => decide (0 < n)
     | none => false) && !baseField.isEmpty
  | _ => false

/-- The gene-coordinate row rule stated from the spec's words, with
"parse as positive integers" amended to "parse as Rust `usize`": trim each
field; with exactly four fields and both coordinates parsing, yield the
record. -/
def geneRowSpec (rec : List Str) : Option GeneInfo :=
  match rec.map trimStr with
  | [contig_id, gene_id, startField, endField] =>
    match parseUsize startField, parseUsize endField with
    | some start_position, some end_position =>
      some ⟨contig_id, start_position, end_position, gene_id⟩
    | _, _ => none
  | _ => none

/-! ### Helper lemmas: the three readers -/

lemma readMutationsStep_eq (acc : List Mut) (line : Str) :
    readMutationsStep acc line = acc ++ (mutRowSpec line).toList := by
  unfold readMutationsStep mutRowSpec
  generalize splitComma line = ps
  rcases ps with _ | ⟨f0, _ | ⟨f1, _ | ⟨f2, _ | ⟨f3, r⟩⟩⟩⟩ <;> try simp
  cases parseUsize f1 <;> cases f2.head? <;> simp

lemma read_mutations_foldl (lines : List Str) :
    ∀ acc : List Mut, lines.foldl readMutationsStep acc = acc ++ lines.filterMap mutRowSpec := by
  induction lines with
  | nil => intro acc; simp
  | cons line rest ih =>
    intro acc
    rw [List.foldl_cons, ih, readMutationsStep_eq, List.filterMap_cons]
    cases mutRowSpec line <;> simp

lemma readContigs_aux_spec :
    ∀ (rest : List Str) (m : ContigMap) (id seq : Str),
      readContigsFinish (rest.foldl readContigsStep (m, id, seq)) =
        (specRecordsAux id seq rest).foldl specInsert m := by
  intro rest
  induction rest with
  | nil =>
    intro m id seq
    rfl
  | cons line rest ih =>
    intro m id seq
    simp only [List.foldl_cons, specRecordsAux]
    by_cases hh : line.head? = some '>'
    · rw [if_pos hh]
      have hstep : readContigsStep (m, id, seq) line = (specInsert m (id, seq), line.tail, []) := by
        simp only [readContigsStep, specInsert]
        rw [if_pos hh]
      rw [hstep, List.foldl_cons]
      exact ih (specInsert m (id, seq)) line.tail []
    · rw [if_neg hh]
      have hstep : readContigsStep (m, id, seq) line = (m, id, seq ++ line) := by
        simp only [readContigsStep]
        rw [if_neg hh]
      rw [hstep]
      exact ih m id (seq ++ line)

lemma readContigs_spec_fold :
    ∀ (lines : List Str) (m : ContigMap) (seq : Str),
      readContigsFinish (lines.foldl readContigsStep (m, [], seq)) =
        (specRecords lines).foldl specInsert m := by
  intro lines
  induction lines with
  | nil =>
    intro m seq
    simp only [List.foldl_nil, specRecords]
    unfold readContigsFinish
    rw [if_neg (by simp)]
  | cons line rest ih =>
    intro m seq
    simp only [List.foldl_cons, specRecords]
    by_cases hh : line.head? = some '>'
    · rw [if_pos hh]
      have hstep : readContigsStep (m, [], seq) line = (m, line.tail, []) := by
        simp only [readContigsStep]
        rw [if_pos hh, if_neg (by simp)]
      rw [hstep]
      exact readContigs_aux_spec rest m line.tail []
    · rw [if_neg hh]
      have hstep : readContigsStep (m, [], seq) line = (m, [], seq ++ line) := by
        simp only [readContigsStep]
        rw [if_neg hh]
      rw [hstep]
      exact ih m (seq ++ line)

lemma readContigs_seed_irrelevant :
    ∀ (lines : List Str) (m : ContigMap) (s0 s1 : Str),
      readContigsFinish (lines.foldl readContigsStep (m, [], s0)) =
        readContigsFinish (lines.foldl readContigsStep (m, [], s1)) := by
  intro lines
  induction lines with
  | nil =>
    intro m s0 s1
    simp only [List.foldl_nil]
    unfold readContigsFinish
    rw [if_neg (by simp), if_neg (by simp)]
  | cons line rest ih =>
    intro m s0 s1
    simp only [List.foldl_cons]
    by_cases hh : line.head? = some '>'
    · have h0 : readContigsStep (m, [], s0) line = (m, line.tail, []) := by
        simp only [readContigsStep]
        rw [if_pos hh, if_neg (by simp)]
      have h1 : readContigsStep (m, [], s1) line = (m, line.tail, []) := by
        simp only [readContigsStep]
        rw [if_pos hh, if_neg (by simp)]
      rw [h0, h1]
    · have h0 : readContigsStep (m, [], s0) line = (m, [], s0 ++ line) := by
        simp only [readContigsStep]
        rw [if_neg hh]
      have h1 : readContigsStep (m, [], s1) line = (m, [], s1 ++ line) := by
        simp only [readContigsStep]
        rw [if_neg hh]
      rw [h0, h1]
      exact ih m (s0 ++ line) (s1 ++ line)

lemma foldl_nonheader_lines :
    ∀ (pre : List Str) (m : ContigMap) (seq : Str),
      (∀ l ∈ pre, ¬ l.head? = some '>') →
      ∃ j, pre.foldl readContigsStep (m, [], seq) = (m, [], j) := by
  intro pre
  induction pre with
  | nil => exact fun m seq _ => ⟨seq, rfl⟩
  | cons line rest ih =>
    intro m seq h
    have hh : ¬ line.head? = some '>' := h line (by simp)
    have hstep : readContigsStep (m, [], seq) line = (m, [], seq ++ line) := by
      simp only [readContigsStep]
      rw [if_neg hh]
    rw [List.foldl_cons, hstep]
    exact ih m (seq ++ line) (fun l hl => h l (by simp [hl]))

lemma readGeneRecord_eq_spec (m : GenePosMap) (rec : List Str) :
    readGenePositionsLoop.readGeneRecord m rec =
      (match geneRowSpec rec with
       | some gi => pushEntry m gi.contig_id gi
       | none => m) := by
  unfold readGenePositionsLoop.readGeneRecord geneRowSpec
  generalize rec.map trimStr = fs
  rcases fs with _ | ⟨f0, _ | ⟨f1, _ | ⟨f2, _ | ⟨f3, _ | ⟨f4, r5⟩⟩⟩⟩⟩ <;> try rfl
  dsimp only
  cases parseUsize f2 <;> cases parseUsize f3 <;> rfl

lemma readGenePositionsLoop_all_eq :
    ∀ (records : List (List Str)) (k : Nat) (m : GenePosMap),
      (∀ r ∈ records, r.length = k) →
      readGenePositionsLoop records (some k) m =
        .ok (records.foldl readGenePositionsLoop.readGeneRecord m) := by
  intro records
  induction records with
  | nil => intro k m _; rfl
  | cons r rest ih =>
    intro k m h
    have hr : r.length = k := h r (by simp)
    simp only [readGenePositionsLoop, List.foldl_cons]
    rw [if_neg (by omega)]
    exact ih k _ (fun q hq => h q (by simp [hq]))

lemma processGene_singleton (contigs : ContigMap) (mutations : List Mut) (g : Str)
    (gi : GeneInfo) (s t : Str)
    (hc : mapGet? contigs gi.contig_id = some s)
    (ht : mutateRange mutations gi.contig_id gi.start_position gi.end_position s = some t) :
    processGene contigs mutations [] g [gi] = .ok [(g, t)] := by
  unfold processGene
  simp only [List.foldlM_cons, List.foldlM_nil, bind_pure]
  rw [hc]
  dsimp only
  rw [ht]
  rfl

lemma mapGet_singleton {α : Type} (k : Str) (v : α) : mapGet? [(k, v)] k = some v := by
  unfold mapGet?
  rw [List.find?_cons_of_pos _ (by simp)]
  rfl

lemma findMutation_of_unique (muts : List Mut) (cid : Str) (p : Nat) (b : Char)
    (hmem : (cid, p, b) ∈ muts)
    (huniq : ∀ q ∈ muts, q.1 = cid → q.2.1 = p → q.2.2 = b) :
    findMutation muts cid p = some b := by
  unfold findMutation
  cases hf : List.find? (fun m => m.1 == cid && m.2.1 == p) muts with
  | none =>
    rw [List.find?_eq_none] at hf
    exact absurd (by simp : ((cid, p, b).1 == cid && (cid, p, b).2.1 == p) = true)
      (hf _ hmem)
  | some m =>
    have hp := List.find?_some hf
    have hmm := List.mem_of_find?_eq_some hf
    simp only [Bool.and_eq_true, beq_iff_eq] at hp
    have hb := huniq m hmm hp.1 hp.2
    show some m.2.2 = some b
    rw [hb]

lemma findMutation_none_of_not_mem (muts : List Mut) (cid : Str) (p : Nat)
    (h : ∀ b : Char, (cid, p, b) ∉ muts) :
    findMutation muts cid p = none := by
  unfold findMutation
  have hf : List.find? (fun m => m.1 == cid && m.2.1 == p) muts = none := by
    rw [List.find?_eq_none]
    rintro ⟨qc, qp, qb⟩ hq hpred
    simp only [Bool.and_eq_true, beq_iff_eq] at hpred
    obtain ⟨h1, h2⟩ := hpred
    subst h1
    subst h2
    exact h qb hq
  rw [hf]
  rfl

/-! ### Claim theorems -/

/-- C4, counterexample: the claim's acceptance condition requires the
position field to parse as a *positive* integer, but the source's
`parse::<usize>()` accepts `0`: the row `c,0,A` is accepted by the code
(it contributes the entry `(c, 0, A)`) although the claimed condition
rejects it. -/
theorem c4_counterexample :
    read_mutations ["c,0,A".data] = [("c".data, 0, 'A')] ∧
      c4ClaimAccept "c,0,A".data = false := ⟨rfl, rfl⟩

/-- C4, amended: a mutation-table row contributes an entry iff it has
exactly three comma-separated fields, its position field parses as a Rust
`usize` (a nonnegative integer — zero included — of at most
`usize::MAX`), and its base field is nonempty; the entry uses the first
character of the base field.  Stated as: `read_mutations` filters its
lines through the per-row rule `mutRowSpec`. -/
theorem c4_mutation_row_acceptance (lines : List Str) :
    read_mutations lines = lines.filterMap mutRowSpec := by
  unfold read_mutations
  rw [read_mutations_foldl]
  rfl

/-- C8, counterexample: a header whose identifier is empty (the line is
just the marker) starts a record the claim says should be mapped, but
`read_contigs` drops it: on the record with identifier `[]` and nonempty
sequence `A` the store stays empty. -/
theorem c8_counterexample :
    read_contigs [">".data, "A".data] = [] ∧
      specRecords [">".data, "A".data] = [([], "A".data)] := ⟨rfl, rfl⟩

/-- C8, amended: the Contig Store maps each header's identifier to the
verbatim concatenation of the following non-header lines up to the next
header or input end, a repeated identifier is overwritten by the later
record, and records with an empty sequence — and likewise records with an
empty identifier — produce no entry.  Stated as a refinement: the source's
`read_contigs` equals the record fold written from the spec's words. -/
theorem c8_contig_store_refinement (lines : List Str) :
    read_contigs lines = contigStoreSpec lines := by
  unfold read_contigs contigStoreSpec
  exact readContigs_spec_fold lines [] []

/-- C10: non-header lines before the first header contribute to no record;
the store built from the input with those leading lines removed is the
same. -/
theorem c10_leading_lines_ignored (pre lines : List Str)
    (h : ∀ l ∈ pre, ¬ l.head? = some '>') :
    read_contigs (pre ++ lines) = read_contigs lines := by
  unfold read_contigs
  rw [List.foldl_append]
  rcases foldl_nonheader_lines pre [] [] h with ⟨j, hj⟩
  rw [hj]
  exact readContigs_seed_irrelevant lines [] j []

/-- Witness for C10 at a concrete input with two junk lines before the
first header. -/
theorem c10_leading_lines_ignored_witness :
    read_contigs ["AA".data, "TT".data, ">c".data, "GT".data] =
      read_contigs [">c".data, "GT".data] :=
  c10_leading_lines_ignored ["AA".data, "TT".data] [">c".data, "GT".data] (by decide)

/-- C3, counterexample: a malformed gene-coordinate row *is* fatal when its
field count differs from the first row's — the csv reader's record error is
propagated by the `?` on line 289, aborting the whole read (and with it the
run) instead of skipping the row. -/
theorem c3_counterexample :
    read_gene_positions
        [["c".data, "g".data, "1".data, "2".data], ["x".data, "y".data, "z".data]] =
      .error "CSV error: record length mismatch" := rfl

/-- C3, amended: when every row has the same field count as the first row,
a malformed row (not four fields after this uniformity, or a coordinate
field that does not parse as a Rust `usize`) is skipped with a diagnostic
and all other rows are still processed — the read returns the fold of the
per-row rule `geneRowSpec`; a row whose field count differs from the first
row's instead aborts the whole read with a CSV error. -/
theorem c3_uniform_rows_never_fatal (records : List (List Str)) (k : Nat)
    (h : ∀ r ∈ records, r.length = k) :
    read_gene_positions records =
      .ok (records.foldl
        (fun m r =>
          match geneRowSpec r with
          | some gi => pushEntry m gi.contig_id gi
          | none => m) []) := by
  have hfold : ∀ (rs : List (List Str)) (m : GenePosMap),
      rs.foldl readGenePositionsLoop.readGeneRecord m =
        rs.foldl (fun m2 r =>
          match geneRowSpec r with
          | some gi => pushEntry m2 gi.contig_id gi
          | none => m2) m := by
    intro rs
    induction rs with
    | nil => intro m; rfl
    | cons r rest ih =>
      intro m
      rw [List.foldl_cons, List.foldl_cons, readGeneRecord_eq_spec, ih]
  cases records with
  | nil => rfl
  | cons r rest =>
    have hr : ∀ q ∈ rest, q.length = r.length := by
      intro q hq
      rw [h q (by simp [hq]), h r (by simp)]
    unfold read_gene_positions
    have hstep : readGenePositionsLoop (r :: rest) none [] =
        readGenePositionsLoop rest (some r.length)
          (readGenePositionsLoop.readGeneRecord [] r) := rfl
    rw [hstep, readGenePositionsLoop_all_eq rest r.length _ hr, ← List.foldl_cons, hfold]

/-- Witness for C3 (amended) at a concrete input whose second row has an
unparsable coordinate: the row is skipped, the first and third rows are
processed, and the read succeeds. -/
theorem c3_uniform_rows_never_fatal_witness :
    read_gene_positions
        [["c".data, "g".data, "1".data, "2".data],
         ["c".data, "h".data, "x".data, "2".data],
         ["c".data, "i".data, "2".data, "3".data]] =
      .ok ([["c".data, "g".data, "1".data, "2".data],
            ["c".data, "h".data, "x".data, "2".data],
            ["c".data, "i".data, "2".data, "3".data]].foldl
        (fun m r =>
          match geneRowSpec r with
          | some gi => pushEntry m gi.contig_id gi
          | none => m) []) :=
  c3_uniform_rows_never_fatal _ 4 (by decide)

/-- C2, counterexample: a gene record with `end` beyond the mutated
sequence's length is not skipped with a diagnostic — line 118's byte slice
`&mutated_sequence[start..end]` has no bounds check and panics, aborting
the run with a non-zero exit instead of continuing: gene `g` on the
two-base contig `c` with span `[1,5]` crashes the run. -/
theorem c2_counterexample :
    gene_snv_replace [">c".data, "AC".data] [] [["c".data, "g".data, "1".data, "5".data]] =
      .error "panic: byte index out of range" := rfl

/-- C2, amended: for a gene whose selected coordinate record has `end`
greater than the byte length of the stored mutated sequence, extraction
panics at the slice (modelled as the propagated error), aborting the run;
there is no skip-with-diagnostic for an out-of-range coordinate. -/
theorem c2_out_of_range_end_panics (contigs : ContigMap) (ms : Str) (gi : GeneInfo)
    (rest : List GeneInfo) (q : Str)
    (hc : mapGet? contigs gi.contig_id = some q)
    (hend : utf8Len ms < gi.end_position) :
    extractLoop contigs ms (gi :: rest) = .error "panic: byte index out of range" := by
  unfold extractLoop
  rw [hc]
  dsimp only
  rw [byteSlice_none_of_lt ms _ _ hend]

/-- Witness for C2 (amended): span `[1,5]` on a stored sequence of two
bytes panics. -/
theorem c2_out_of_range_end_panics_witness :
    extractLoop [("c".data, "AC".data)] "AC".data [⟨"c".data, 1, 5, "g".data⟩] =
      .error "panic: byte index out of range" :=
  c2_out_of_range_end_panics _ _ _ _ "AC".data rfl (by decide)

/-- C5, counterexample: gene `g` has two records, first `(cX, 1, 3)` then
`(c1, 2, 4)`; `cX` is absent from the store, so extraction uses the second
record's span `(2, 4)` and produces `BCD`, not the first-in-input-order
record's span `(1, 3)`, which would have produced `ABC`. -/
theorem c5_counterexample :
    gene_snv_replace [">c1".data, "ABCDEF".data] []
        [["cX".data, "g".data, "1".data, "3".data],
         ["c1".data, "g".data, "2".data, "4".data]] =
      .ok [("g".data, "BCD".data)] ∧
    byteSlice "ABCDEF".data (wsub1 1) 3 = some "ABC".data ∧
    "BCD".data ≠ "ABC".data := ⟨rfl, rfl, by decide⟩

/-- C5, amended: extraction obtains `(start, end)` from the first record of
the gene's grouped list whose contig id is present in the Contig Store
(records whose contig is absent are skipped with a diagnostic); the
produced slice is that record's span over the stored mutated sequence. -/
theorem c5_first_present_record_selected (contigs : ContigMap) (ms : Str)
    (l1 l2 : List GeneInfo) (r : GeneInfo) (q : Str)
    (habsent : ∀ gi ∈ l1, mapGet? contigs gi.contig_id = none)
    (hpresent : mapGet? contigs r.contig_id = some q) :
    extractLoop contigs ms (l1 ++ r :: l2) =
      match byteSlice ms (wsub1 r.start_position) r.end_position with
      | some gene_sequence => .ok (some gene_sequence)
      | none => .error "panic: byte index out of range" := by
  induction l1 with
  | nil =>
    simp only [List.nil_append]
    unfold extractLoop
    rw [hpresent]
  | cons gi l1 ih =>
    have hgi := habsent gi (by simp)
    rw [List.cons_append]
    unfold extractLoop
    rw [hgi]
    exact ih (fun g2 hg2 => habsent g2 (by simp [hg2]))

/-- Witness for C5 (amended): the first record's contig `cX` is absent, the
second record `(c1, 2, 4)` is selected and its span is sliced. -/
theorem c5_first_present_record_selected_witness :
    extractLoop [("c1".data, "ABCDEF".data)] "ABCDEF".data
        [⟨"cX".data, 1, 3, "g".data⟩, ⟨"c1".data, 2, 4, "g".data⟩] =
      match byteSlice "ABCDEF".data (wsub1 2) 4 with
      | some gene_sequence => .ok (some gene_sequence)
      | none => .error "panic: byte index out of range" :=
  c5_first_present_record_selected [("c1".data, "ABCDEF".data)] "ABCDEF".data
    [⟨"cX".data, 1, 3, "g".data⟩] [] ⟨"c1".data, 2, 4, "g".data⟩ "ABCDEF".data
    (by decide) rfl

/-- C9, counterexample: the loop's bound check compares `position - 1`
against the *byte* length of the working copy but indexes the *char*
vector: on the one-char, two-byte contig `é` with a mutation at position 2
inside the gene's span, the check `1 < 2` passes and `chars[1]` is an
out-of-bounds index — the run panics. -/
theorem c9_counterexample :
    gene_snv_replace [">c".data, "é".data] ["c,2,X".data]
        [["c".data, "g".data, "2".data, "2".data]] =
      .error "panic: index out of bounds" := rfl

/-- C9, amended: when the working copy and the table's replacement bases
are single-byte (ASCII) characters — so that byte length and char count
coincide — the substitution loop never panics: it returns a copy of the
same length, and any in-span position whose 0-based index falls at or
beyond the copy's length is silently skipped, leaving the copy unchanged
there. -/
theorem c9_ascii_loop_never_panics (mutations : List Mut) (cid : Str)
    (startp endp : Nat) (s : Str)
    (hs : asciiStr s = true) (hb : mutBasesAscii mutations = true) :
    ∃ t, mutateRange mutations cid startp endp s = some t ∧ t.length = s.length ∧
      ∀ i : Nat, s.length ≤ i → t[i]? = s[i]? := by
  rcases mutateLoop_some_of_ascii mutations cid hb (endp + 1 - startp) startp s hs with
    ⟨t, ht, _, htl⟩
  refine ⟨t, ht, htl, fun i hi => ?_⟩
  rw [List.getElem?_eq_none (by omega), List.getElem?_eq_none hi]

/-- Witness for C9 (amended): ASCII contig `ACGT`, one mutation, span
`[2, 9]` reaching past the copy's length. -/
theorem c9_ascii_loop_never_panics_witness :
    ∃ t, mutateRange [("c".data, 3, 'T')] "c".data 2 9 "ACGT".data = some t ∧
      t.length = ("ACGT".data).length ∧
      ∀ i : Nat, ("ACGT".data).length ≤ i → t[i]? = ("ACGT".data)[i]? :=
  c9_ascii_loop_never_panics [("c".data, 3, 'T')] "c".data 2 9 "ACGT".data
    (by decide) (by decide)

/-- C6: when several mutation rows target the same `(contig, position)`,
the base applied is a deterministic function of the input: line 85's
`mutations.iter().find(...)` always selects the *first* matching row of the
table, regardless of any later conflicting row, so two runs on the same
input apply the same base.  Here the table contains `(cid, p, b1)` followed
later by a conflicting `(cid, p, b2)`, and the working copy ends up holding
`b1` at the 0-based index `p - 1`. -/
theorem c6_first_matching_row_wins (l1 l2 l3 : List Mut) (cid : Str) (p : Nat)
    (b1 b2 : Char) (s : Str) (startp endp : Nat)
    (hnm : ∀ m ∈ l1, ¬(m.1 = cid ∧ m.2.1 = p))
    (hs : asciiStr s = true)
    (hb : mutBasesAscii (l1 ++ ((cid, p, b1) :: (l2 ++ ((cid, p, b2) :: l3)))) = true)
    (hlen : s.length ≤ USIZE_MAX)
    (h1 : startp ≤ p) (h2 : p ≤ endp) (h3 : 1 ≤ p) (h4 : p - 1 < s.length) :
    ∃ t, mutateRange (l1 ++ ((cid, p, b1) :: (l2 ++ ((cid, p, b2) :: l3)))) cid startp endp s
        = some t ∧ t[p - 1]? = some b1 := by
  have hfind : findMutation (l1 ++ ((cid, p, b1) :: (l2 ++ ((cid, p, b2) :: l3)))) cid p
      = some b1 := by
    rw [findMutation_append_of_none l1 ((cid, p, b1) :: (l2 ++ ((cid, p, b2) :: l3))) cid p hnm]
    exact findMutation_cons_self _ cid p b1
  rcases mutateLoop_some_of_ascii (l1 ++ ((cid, p, b1) :: (l2 ++ ((cid, p, b2) :: l3)))) cid hb
    (endp + 1 - startp) startp s hs with ⟨t, ht, _, _⟩
  refine ⟨t, ht, ?_⟩
  have hpt := mutateLoop_point (l1 ++ ((cid, p, b1) :: (l2 ++ ((cid, p, b2) :: l3)))) cid hb
    (endp + 1 - startp) startp s t p hs hlen ht h1 (by omega) h3
  rw [hpt, hfind, List.getElem?_eq_getElem (by omega : p - 1 < s.length)]
  rfl

/-- Witness for C6: two conflicting rows for `(c, 2)`; the earlier base `T`
is applied. -/
theorem c6_first_matching_row_wins_witness :
    ∃ t, mutateRange [("c".data, 2, 'T'), ("c".data, 2, 'G')] "c".data 1 4 "ACGT".data
        = some t ∧ t[2 - 1]? = some 'T' :=
  c6_first_matching_row_wins [] [] [] "c".data 2 'T' 'G' "ACGT".data 1 4
    (by decide) (by decide) (by decide) (by decide)
    (by decide) (by decide) (by decide) (by decide)

/-- C7: the engine's working copy stays equal to the store's original
contig sequence at every position outside the gene's `[start, end]` span —
only in-span positions are candidates for substitution — and the Contig
Store itself is read through `mapGet?` only, never rebuilt: the stored
result for the gene agrees with the store's sequence `s` outside the span. -/
theorem c7_outside_span_unchanged (contigs : ContigMap) (mutations : List Mut)
    (g : Str) (gi : GeneInfo) (s : Str) (st : MutStore)
    (hc : mapGet? contigs gi.contig_id = some s)
    (hlen : utf8Len s ≤ USIZE_MAX)
    (hpg : processGene contigs mutations [] g [gi] = .ok st) :
    ∃ t, mapGet? st g = some t ∧ t.length = s.length ∧
      ∀ i : Nat, i + 1 < gi.start_position ∨ gi.end_position < i + 1 →
        t[i]? = s[i]? := by
  unfold processGene at hpg
  simp only [List.foldlM_cons, List.foldlM_nil, bind_pure] at hpg
  rw [hc] at hpg
  dsimp only at hpg
  cases hmr : mutateRange mutations gi.contig_id gi.start_position gi.end_position s with
  | none =>
    rw [hmr] at hpg
    exact Except.noConfusion hpg
  | some t =>
    rw [hmr] at hpg
    cases hpg
    have hlength : t.length = s.length :=
      mutateLoop_length mutations gi.contig_id (gi.end_position + 1 - gi.start_position)
        gi.start_position s t hmr
    refine ⟨t, mapGet_singleton g t, hlength, ?_⟩
    intro i hi
    rcases Nat.lt_or_ge i s.length with hilt | hige
    · refine mutateLoop_frame mutations gi.contig_id (gi.end_position + 1 - gi.start_position)
        gi.start_position s t i hmr ?_
      intro p hp1 hp2
      rcases Nat.eq_zero_or_pos p with hz | hpz
      · subst hz
        have hz1 : wsub1 0 = USIZE_MAX := rfl
        have hz2 := length_le_utf8Len s
        omega
      · rw [wsub1_of_pos p hpz]
        omega
    · rw [List.getElem?_eq_none (by omega), List.getElem?_eq_none hige]

/-- Witness for C7: contig `ACGT`, gene span `[2, 3]`, a mutation at
position 2; positions 1 and 4 keep their original bases. -/
theorem c7_outside_span_unchanged_witness :
    ∃ t, mapGet? [("g".data, "ATGT".data)] "g".data = some t ∧
      t.length = ("ACGT".data).length ∧
      ∀ i : Nat, i + 1 < 2 ∨ 3 < i + 1 → t[i]? = ("ACGT".data)[i]? :=
  c7_outside_span_unchanged [("c".data, "ACGT".data)] [("c".data, 2, 'T')] "g".data
    ⟨"c".data, 2, 3, "g".data⟩ "ACGT".data [("g".data, "ATGT".data)]
    rfl (by decide) rfl

/-- C1, counterexample: the source byte-slices the mutated `String`
(line 118) while the claim's positions count characters.  On the contig
`éab` (three characters, four bytes) with gene span `[3, 3]` and no
mutations, the claim requires the output at offset `3 - 3 = 0` to be the
original base at position 3, which is `b`; the program outputs `a`. -/
theorem c1_counterexample :
    gene_snv_replace [">c".data, "éab".data] [] [["c".data, "g".data, "3".data, "3".data]] =
      .ok [("g".data, "a".data)] ∧
    mapGet? (read_contigs [">c".data, "éab".data]) "c".data = some "éab".data ∧
    ("éab".data)[3 - 1]? = some 'b' ∧
    read_mutations [] = [] ∧
    ('a' : Char) ≠ 'b' := ⟨rfl, rfl, rfl, rfl, by decide⟩

/-- C1, amended: for a gene record on a contig `c` present in the store
whose sequence consists of single-byte (ASCII) characters — and with
single-byte replacement bases — for every 1-based position `p` in
`[start, end]` with `1 ≤ start` and `end ≤ length`: if the Mutation Table
holds an entry `(c, p, b)` and every entry for `(c, p)` carries that same
base `b`, the extracted output at offset `p - start` is `b`; if it holds no
entry for `(c, p)`, that offset keeps the original contig's base at `p`. -/
theorem c1_mutation_applied_pointwise (contigs : ContigMap) (mutations : List Mut)
    (g : Str) (gi : GeneInfo) (s : Str) (p : Nat)
    (hc : mapGet? contigs gi.contig_id = some s)
    (hs : asciiStr s = true) (hb : mutBasesAscii mutations = true)
    (hstart : 1 ≤ gi.start_position)
    (hp1 : gi.start_position ≤ p) (hp2 : p ≤ gi.end_position)
    (hend : gi.end_position ≤ s.length)
    (hmax : s.length ≤ USIZE_MAX) :
    ∃ st t out,
      processGene contigs mutations [] g [gi] = .ok st ∧
      mapGet? st g = some t ∧
      extractLoop contigs t [gi] = .ok (some out) ∧
      (∀ b : Char,
        ((gi.contig_id, p, b) ∈ mutations ∧
          ∀ q ∈ mutations, q.1 = gi.contig_id → q.2.1 = p → q.2.2 = b) →
        out[p - gi.start_position]? = some b) ∧
      ((∀ b : Char, (gi.contig_id, p, b) ∉ mutations) →
        out[p - gi.start_position]? = s[p - 1]?) := by
  rcases mutateLoop_some_of_ascii mutations gi.contig_id hb
    (gi.end_position + 1 - gi.start_position) gi.start_position s hs with ⟨t, ht, hta, htl⟩
  have hpg := processGene_singleton contigs mutations g gi s t hc ht
  have hbs : byteSlice t (wsub1 gi.start_position) gi.end_position =
      some ((t.drop (gi.start_position - 1)).take
        (gi.end_position - (gi.start_position - 1))) := by
    rw [wsub1_of_pos _ hstart]
    exact byteSlice_of_ascii t _ _ hta (by omega) (by omega)
  have hel : extractLoop contigs t [gi] =
      .ok (some ((t.drop (gi.start_position - 1)).take
        (gi.end_position - (gi.start_position - 1)))) := by
    unfold extractLoop
    rw [hc]
    dsimp only
    rw [hbs]
  have hidx : ((t.drop (gi.start_position - 1)).take
      (gi.end_position - (gi.start_position - 1)))[p - gi.start_position]? = t[p - 1]? := by
    rw [List.getElem?_take_of_lt (by omega), List.getElem?_drop]
    have harith : gi.start_position - 1 + (p - gi.start_position) = p - 1 := by omega
    rw [harith]
  have hpoint := mutateLoop_point mutations gi.contig_id hb
    (gi.end_position + 1 - gi.start_position) gi.start_position s t p hs hmax ht hp1
    (by omega) (by omega)
  refine ⟨[(g, t)], t, _, hpg, mapGet_singleton g t, hel, ?_, ?_⟩
  · rintro b ⟨hmem, huniq⟩
    have hfind := findMutation_of_unique mutations gi.contig_id p b hmem huniq
    rw [hidx, hpoint, hfind,
      List.getElem?_eq_getElem (show p - 1 < s.length by omega)]
    rfl
  · intro hnone
    have hfind := findMutation_none_of_not_mem mutations gi.contig_id p hnone
    rw [hidx, hpoint, hfind]
    cases hsp : s[p - 1]? <;> rfl

/-- Witness for C1 (amended): contig `ACGT`, gene span `[2, 4]`, one
mutation at position 2; instantiated at `p = 2`. -/
theorem c1_mutation_applied_pointwise_witness :
    ∃ st t out,
      processGene [("c".data, "ACGT".data)] [("c".data, 2, 'T')] [] "g".data
          [⟨"c".data, 2, 4, "g".data⟩] = .ok st ∧
      mapGet? st "g".data = some t ∧
      extractLoop [("c".data, "ACGT".data)] t [⟨"c".data, 2, 4, "g".data⟩] =
        .ok (some out) ∧
      (∀ b : Char,
        (("c".data, 2, b) ∈ [("c".data, 2, 'T')] ∧
          ∀ q ∈ [("c".data, 2, 'T')], q.1 = "c".data → q.2.1 = 2 → q.2.2 = b) →
        out[2 - 2]? = some b) ∧
      ((∀ b : Char, ("c".data, 2, b) ∉ [("c".data, 2, 'T')]) →
        out[2 - 2]? = ("ACGT".data)[2 - 1]?) :=
  c1_mutation_applied_pointwise [("c".data, "ACGT".data)] [("c".data, 2, 'T')] "g".data
    ⟨"c".data, 2, 4, "g".data⟩ "ACGT".data 2 rfl (by decide) (by decide) (by decide)
    (by decide) (by decide) (by decide) (by decide)

end RSNV
